import Mathlib

/-!
Verification development for the lv_font_viewer font decoders.

Shallow embedding of the two format decoders (`src/parsers/c_parser.py`,
`src/parsers/bin_parser.py`) and the font data model
(`src/models/font_data.py`).  Bytes are modelled as `Nat` values `< 256`,
byte buffers as `List Nat`, Python `dict` objects as insertion-ordered
association lists, numpy pixel grids as the flat list of their
`height*width` samples (the source writes through `pixels.flat`, which is
exactly this flat order), and a Python exception escaping to the
top-level `try/except` of `parse` as an `Except`/`Option` failure.
-/

namespace LvFont

/-! ## Byte-level readers (bin_parser.py `_read_uint16` / `_read_uint32` /
`_read_int16` / `_read_int8`, all little-endian `struct.unpack_from`).
Out-of-range reads are guarded separately at each use site, exactly where
the Python code guards them (or lets them raise). -/

/-- Little-endian u16 at byte offset `off`. -/
def le16 (data : List Nat) (off : Nat) : Nat :=
  data.getD off 0 + 256 * data.getD (off + 1) 0

/-- Little-endian u32 at byte offset `off`. -/
def le32 (data : List Nat) (off : Nat) : Nat :=
  data.getD off 0 + 256 * data.getD (off + 1) 0 +
    65536 * data.getD (off + 2) 0 + 16777216 * data.getD (off + 3) 0

/-- Two's-complement decoding of a u16 bit pattern (`struct '<h'`). -/
def i16val (v : Nat) : Int :=
  if v < 32768 then (v : Int) else (v : Int) - 65536

/-- Two's-complement decoding of a u8 bit pattern (`struct 'b'`). -/
def i8val (v : Nat) : Int :=
  if v < 128 then (v : Int) else (v : Int) - 256

/-! ## Data model (`src/models/font_data.py`) -/

/-- `GlyphInfo` dataclass.  `bitmap_data` is the optional decoded pixel
grid, kept as the flat list of its `box_h * box_w` samples. -/
structure GlyphInfo where
  unicode : Nat
  bitmap_index : Nat
  adv_w : Nat
  box_w : Nat
  box_h : Nat
  ofs_x : Int
  ofs_y : Int
  bitmap_data : Option (List Nat) := none
deriving DecidableEq, Repr

/-- `CmapRange` dataclass. -/
structure CmapRange where
  range_start : Nat
  range_length : Nat
  glyph_id_start : Nat
  unicode_list : Option (List Nat) := none
  glyph_id_ofs_list : Option (List Nat) := none
  list_length : Nat := 0
  cmap_type : String := "FORMAT0_TINY"
deriving DecidableEq, Repr

/-- `FontInfo` dataclass (the fields either parser reads or writes, plus
their dataclass defaults).  The derived `unicode_to_glyph` index is kept
out of the structure and modelled by the standalone `buildIndex` below,
which is how `build_index` recomputes it from `glyphs` alone. -/
structure FontInfo where
  font_name : String := ""
  file_type : String := ""
  font_size : Nat := 0
  line_height : Int := 0
  base_line : Int := 0
  bpp : Nat := 0
  glyphs : List GlyphInfo := []
  glyph_bitmap : List Nat := []
  cmap_ranges : List CmapRange := []
  kern_scale : Nat := 0
  subpx : String := "NONE"
  underline_position : Int := 0
  underline_thickness : Nat := 0
deriving DecidableEq, Repr

/-- `FontInfo.build_index`: clears the dict and stores every glyph with
`unicode > 0` under its unicode, in glyph-list order, so a later glyph in
the list overwrites an earlier one with the same unicode.  The dict is
modelled as the lookup function it induces. -/
def buildIndex (glyphs : List GlyphInfo) : Nat → Option GlyphInfo :=
  glyphs.foldl
    (fun m g =>
      if 0 < g.unicode then fun u => if u = g.unicode then some g else m u
      else m)
    (fun _ => none)

/-- `FontInfo.get_unicode_ranges`: one `(start, start+length-1)` pair per
recorded cmap range (Python ints, so the upper end may be `start - 1`). -/
def getUnicodeRanges (f : FontInfo) : List (Int × Int) :=
  f.cmap_ranges.map
    (fun c => ((c.range_start : Int),
               (c.range_start : Int) + (c.range_length : Int) - 1))

/-! ## Bitmap codec (`_unpack_bitmap` in both parsers; the two bodies are
the same algorithm, the only textual difference being that the C parser
re-checks `pixel_idx >= width*height` at the top of each group while the
BIN parser checks right after each write — both emit, per byte, exactly
`min(groupSize, remaining)` samples and stop). -/

/-- The samples one input byte contributes, most significant bits first,
mirroring the shift sequences in the source (`bpp=4`: high nibble then
low; `bpp=2`: shifts 6,4,2,0; `bpp=1`: bits 7 down to 0). -/
def byteSamples (bpp b : Nat) : List Nat :=
  if bpp = 4 then [(b >>> 4) &&& 15, b &&& 15]
  else if bpp = 2 then
    [(b >>> 6) &&& 3, (b >>> 4) &&& 3, (b >>> 2) &&& 3, b &&& 3]
  else if bpp = 1 then
    [(b >>> 7) &&& 1, (b >>> 6) &&& 1, (b >>> 5) &&& 1, (b >>> 4) &&& 1,
     (b >>> 3) &&& 1, (b >>> 2) &&& 1, (b >>> 1) &&& 1, b &&& 1]
  else [b]

/-- The byte loop of `_unpack_bitmap` for `bpp` 1, 2 and 4: walk the data
bytes, emitting that byte's samples until `n = width*height` samples have
been produced (`pixel_idx` is `idx`; a byte emits only the first
`n - idx` of its samples before the loop breaks). -/
def unpackLoop (data : List Nat) (n bpp idx : Nat) : List Nat :=
  match data with
  | [] => []
  | b :: rest =>
    if n ≤ idx then []
    else
      let emitted := (byteSamples bpp b).take (n - idx)
      emitted ++ unpackLoop rest n bpp (idx + emitted.length)

/-- `_calculate_bitmap_bytes` (c_parser.py). -/
def calcBitmapBytes (pixel_count bpp : Nat) : Nat :=
  if bpp = 8 then pixel_count
  else if bpp = 4 then (pixel_count + 1) / 2
  else if bpp = 2 then (pixel_count + 3) / 4
  else if bpp = 1 then (pixel_count + 7) / 8
  else pixel_count

/-- `_unpack_bitmap`: result is the flat sample list of the
`(height, width)` grid.
* `bpp = 8`: `np.frombuffer(data).reshape(height, width)` — the bytes
  verbatim, but `reshape` raises (`none`) unless the length is exactly
  `height * width`;
* `bpp` 4 / 2 / 1: a zero-initialised `height * width` grid overwritten
  by the byte loop, so any samples the data cannot fill stay 0;
* any other `bpp`: no branch runs and the zero grid is returned as-is. -/
def unpackBitmap (data : List Nat) (width height bpp : Nat) :
    Option (List Nat) :=
  if bpp = 8 then
    if data.length = height * width then some data else none
  else if bpp = 4 ∨ bpp = 2 ∨ bpp = 1 then
    let raw := unpackLoop data (width * height) bpp 0
    some (raw ++ List.replicate (width * height - raw.length) 0)
  else
    some (List.replicate (height * width) 0)

/-- Stated from the spec's words, for comparison with `unpackBitmap`:
sample `i` comes from byte `i*bpp/8`, most significant bits first within
the byte (`shift = 8 - bpp - (i*bpp) % 8`), masked to `bpp` bits; exactly
`count = width*height` samples are produced. -/
def msbFirstSamples (data : List Nat) (count bpp : Nat) : List Nat :=
  (List.range count).map
    (fun i => data.getD (i * bpp / 8) 0 / 2 ^ (8 - bpp - i * bpp % 8) % 2 ^ bpp)

/-! ## Textual source decoder (`src/parsers/c_parser.py`)

The regex-extraction layer is abstracted: a `CSource` holds, for each
logical table `CFontParser` locates in the text, the values its regexes
extract (`none` where the table / field is not found; a cmap block that
lacks one of the three required numeric fields is dropped by
`_parse_single_cmap` before this point, so every `CCmapEntry` carries
them; `cmap_type` is the matched suffix, defaulted to `"FORMAT0_TINY"`
when the `.type` field is absent; `unicode_list` / `glyph_id_ofs_list`
are the integer arrays `_parse_array` resolves from the referenced
names, `none` when the name is absent, `NULL`, or the array is not
found).  The regex layer itself cannot raise, so this is exactly the
input of the computational part of `CFontParser.parse`. -/

/-- One `{.bitmap_index = .., .adv_w = .., ...}` glyph descriptor. -/
structure CGlyphDesc where
  bitmap_index : Nat
  adv_w : Nat
  box_w : Nat
  box_h : Nat
  ofs_x : Int
  ofs_y : Int
deriving DecidableEq, Repr

/-- One cmap block as `_parse_single_cmap` extracts it. -/
structure CCmapEntry where
  range_start : Nat
  range_length : Nat
  glyph_id_start : Nat
  cmap_type : String := "FORMAT0_TINY"
  unicode_list : Option (List Nat) := none
  glyph_id_ofs_list : Option (List Nat) := none
deriving DecidableEq, Repr

/-- The regex-extraction results `CFontParser.parse` computes from the
source text. -/
structure CSource where
  size_px : Option Nat := none
  bpp_field : Option Nat := none
  name_field : Option String := none
  bitmapHex : Option (List Nat) := none
  glyphDescs : Option (List CGlyphDesc) := none
  cmaps : List CCmapEntry := []
  line_height_field : Option Nat := none
  base_line_field : Option Int := none
  subpx_field : Option String := none
deriving DecidableEq, Repr

/-- The `(unicode, glyph_id)` writes one cmap entry performs in
`_parse_single_cmap`, in loop order, including the per-write
`glyph_id < len(font_info.glyphs)` bound check (an out-of-range id is
skipped, aborting nothing).  A `FORMAT0_FULL` / `SPARSE_TINY` /
`SPARSE_FULL` entry loops to `min(range_length, len(list))` over the
list(s) it needs and does nothing when a needed list is `None` or empty
(Python falsiness). -/
def cmapPairsC (e : CCmapEntry) (glyph_count : Nat) : List (Nat × Nat) :=
  if e.cmap_type = "FORMAT0_TINY" then
    (List.range e.range_length).filterMap (fun i =>
      if e.glyph_id_start + i < glyph_count then
        some (e.range_start + i, e.glyph_id_start + i)
      else none)
  else if e.cmap_type = "FORMAT0_FULL" then
    match e.glyph_id_ofs_list with
    | some gl =>
      if gl.isEmpty then []
      else
        (List.range (min e.range_length gl.length)).filterMap (fun i =>
          if e.glyph_id_start + gl.getD i 0 < glyph_count then
            some (e.range_start + i, e.glyph_id_start + gl.getD i 0)
          else none)
    | none => []
  else if e.cmap_type = "SPARSE_TINY" then
    match e.unicode_list with
    | some ul =>
      if ul.isEmpty then []
      else
        (List.range (min e.range_length ul.length)).filterMap (fun i =>
          if e.glyph_id_start + i < glyph_count then
            some (e.range_start + ul.getD i 0, e.glyph_id_start + i)
          else none)
    | none => []
  else if e.cmap_type = "SPARSE_FULL" then
    match e.unicode_list, e.glyph_id_ofs_list with
    | some ul, some gl =>
      if ul.isEmpty ∨ gl.isEmpty then []
      else
        (List.range (min e.range_length (min ul.length gl.length))).filterMap
          (fun i =>
            if e.glyph_id_start + gl.getD i 0 < glyph_count then
              some (e.range_start + ul.getD i 0,
                    e.glyph_id_start + gl.getD i 0)
            else none)
    | _, _ => []
  else []

/-- `font_info.glyphs[glyph_id].unicode = unicode_val` for one emitted
pair (the id was already checked against the list length). -/
def setGlyphUnicode (gs : List GlyphInfo) (p : Nat × Nat) :
    List GlyphInfo :=
  match gs.get? p.2 with
  | some g => gs.set p.2 { g with unicode := p.1 }
  | none => gs

/-- The unicode-assignment effect of one cmap entry on the glyph list
(`len(font_info.glyphs)` is fixed throughout, since assignment preserves
the list length). -/
def applyCmapEntryC (gs : List GlyphInfo) (e : CCmapEntry) :
    List GlyphInfo :=
  (cmapPairsC e gs.length).foldl setGlyphUnicode gs

/-- `_parse_cmap`: process every block in source order; each block also
appends a `CmapRange` record (built from the three numeric fields only)
before its resolution loop runs. -/
def applyCmapsC (gs : List GlyphInfo) (entries : List CCmapEntry) :
    List GlyphInfo :=
  entries.foldl applyCmapEntryC gs

/-- The `CmapRange` records `_parse_single_cmap` appends. -/
def cmapRangesOfC (entries : List CCmapEntry) : List CmapRange :=
  entries.map (fun e =>
    { range_start := e.range_start, range_length := e.range_length,
      glyph_id_start := e.glyph_id_start })

/-- `_extract_glyph_bitmaps`: skip when no bitmap bytes were parsed;
skip a glyph whose box width or height is 0; skip a glyph whose byte
range overruns the buffer; otherwise decode its bytes.  (In this caller
`unpackBitmap` never fails: the slice has exactly `byte_count` bytes, so
the `bpp = 8` reshape always succeeds.) -/
def extractGlyphBitmaps (glyph_bitmap : List Nat) (bpp : Nat)
    (gs : List GlyphInfo) : List GlyphInfo :=
  if glyph_bitmap.isEmpty then gs
  else
    gs.map (fun g =>
      if g.box_w = 0 ∨ g.box_h = 0 then g
      else
        let byte_count := calcBitmapBytes (g.box_w * g.box_h) bpp
        if glyph_bitmap.length < g.bitmap_index + byte_count then g
        else
          let bytes := (glyph_bitmap.drop g.bitmap_index).take byte_count
          { g with bitmap_data := unpackBitmap bytes g.box_w g.box_h bpp })

/-- A parsed glyph descriptor (`unicode` starts at 0, filled by cmap). -/
def glyphOfDesc (d : CGlyphDesc) : GlyphInfo :=
  { unicode := 0, bitmap_index := d.bitmap_index, adv_w := d.adv_w,
    box_w := d.box_w, box_h := d.box_h, ofs_x := d.ofs_x,
    ofs_y := d.ofs_y }

/-- The body of `CFontParser.parse` after reading and decoding the file
text.  The one step whose exception escapes to the top-level handler is
`bytes([int(h, 16) for h in hex_values])`: a hex literal of 256 or more
makes `bytes()` raise `ValueError` (every other step is total — regexes,
`int()` on matched digit strings, length-guarded indexing and slicing,
and `_extract_glyph_bitmaps`, whose `bpp = 8` reshape always sees an
exact-length slice). -/
def cParseBody (src : CSource) : Option FontInfo :=
  let bitmap? : Option (List Nat) :=
    match src.bitmapHex with
    | some hs => if hs.all (· < 256) then some hs else none
    | none => some []
  match bitmap? with
  | none => none
  | some glyph_bitmap =>
    let bpp := src.bpp_field.getD 0
    let glyphs0 := (src.glyphDescs.getD []).map glyphOfDesc
    let glyphs1 := applyCmapsC glyphs0 src.cmaps
    let glyphs2 := extractGlyphBitmaps glyph_bitmap bpp glyphs1
    some
      { font_name := src.name_field.getD "",
        file_type := "c",
        font_size := src.size_px.getD 0,
        line_height := (src.line_height_field.getD 0 : Nat),
        base_line := src.base_line_field.getD 0,
        bpp := bpp,
        glyphs := glyphs2,
        glyph_bitmap := glyph_bitmap,
        cmap_ranges := cmapRangesOfC src.cmaps,
        subpx := src.subpx_field.getD "NONE" }

/-- `CFontParser.parse`: `none` input stands for an unreadable or
undecodable file (the `open`/`read` step raising); any exception from
the body is caught by the blanket handler, which returns `None`. -/
def cParse (input : Option CSource) : Option FontInfo :=
  match input with
  | none => none
  | some src => cParseBody src

/-! ## Binary chunk decoder (`src/parsers/bin_parser.py`) -/

/-- Python `dict` assignment `d[k] = v`: an existing key keeps its
insertion position and gets the new value, a fresh key is appended. -/
def dictInsert (d : List (Nat × Nat)) (k v : Nat) : List (Nat × Nat) :=
  if d.any (fun p => p.1 = k) then
    d.map (fun p => if p.1 = k then (k, v) else p)
  else d ++ [(k, v)]

/-- Python `dict` lookup (the single value stored for a key). -/
def dictLookup (d : List (Nat × Nat)) (k : Nat) : Option Nat :=
  d.foldl (fun acc p => if p.1 = k then some p.2 else acc) none

/-- Insert a list of pairs in order. -/
def dictInsertAll (d : List (Nat × Nat)) (ps : List (Nat × Nat)) :
    List (Nat × Nat) :=
  ps.foldl (fun d p => dictInsert d p.1 p.2) d

/-- The last value written for key `k` in an ordered write sequence. -/
def lastPairWins (ps : List (Nat × Nat)) (k : Nat) : Option Nat :=
  ps.foldl (fun acc p => if p.1 = k then some p.2 else acc) none

/-- `chunk_name` decoding: `decode('ascii', errors='ignore')` drops every
byte ≥ 128, then `rstrip('\x00')` drops trailing NUL bytes. -/
def decodeTag (bs : List Nat) : List Nat :=
  ((bs.filter (fun b => b < 128)).reverse.dropWhile (fun b => b = 0)).reverse

/-- `_read_chunks`, phrased on the unread suffix of the buffer (every
read is at or after the cursor).  The loop breaks — cleanly, storing
nothing more — when fewer than 4 bytes remain for the size field, fewer
than 4 for the tag, the declared size is below the 8 header bytes
(`data_size < 0`), or the declared payload overruns the buffer.  `fuel`
only bounds the recursion; each iteration consumes at least 8 bytes, so
`rem.length` is always sufficient fuel. -/
def readChunksFuel (fuel : Nat) (rem : List Nat) :
    List (List Nat × List Nat) :=
  match fuel with
  | 0 => []
  | fuel + 1 =>
    match rem with
    | [] => []
    | _ :: _ =>
      if rem.length < 4 then []
      else
        let chunk_size := le32 rem 0
        let rem1 := rem.drop 4
        if rem1.length < 4 then []
        else
          let tag := decodeTag (rem1.take 4)
          let rem2 := rem1.drop 4
          if chunk_size < 8 then []
          else
            let data_size := chunk_size - 8
            if rem2.length < data_size then []
            else
              (tag, rem2.take data_size) ::
                readChunksFuel fuel (rem2.drop data_size)

/-- All chunks of a buffer, in order. -/
def readChunks (fileData : List Nat) : List (List Nat × List Nat) :=
  readChunksFuel (fileData.length + 1) fileData

/-- `self.chunks[name]` after all chunks were stored in the dict: the
payload of the last chunk with this tag, if any. -/
def chunkGet (chunks : List (List Nat × List Nat)) (tag : List Nat) :
    Option (List Nat) :=
  chunks.foldl (fun acc c => if c.1 = tag then some c.2 else acc) none

def headTag : List Nat := [104, 101, 97, 100]
def cmapTag : List Nat := [99, 109, 97, 112]
def locaTag : List Nat := [108, 111, 99, 97]
def glyfTag : List Nat := [103, 108, 121, 102]

/-- `_parse_head_chunk` on a payload of at least 40 bytes (the caller
checks that bound; a shorter payload makes `struct.unpack_from` raise).
The sequential reads put the stored fields at fixed offsets: `font_size`
at 6, `ascent` at 8, `descent` at 10, `bits_per_pixel` at byte 29; the
remaining reads land in unused locals. -/
def parseHeadChunk (hd : List Nat) (f : FontInfo) : FontInfo :=
  let ascent := le16 hd 8
  let descent := i16val (le16 hd 10)
  { f with
    font_size := le16 hd 6,
    bpp := hd.getD 29 0,
    line_height := (ascent : Int) - descent,
    base_line := -descent }

/-- The `(unicode, glyph_id)` dict writes one cmap subtable header (16
bytes at `off` in the chunk payload) performs, in loop order, with the
source's bound checks against the payload length. -/
def cmapSubtableEmits (data : List Nat) (off : Nat) : List (Nat × Nat) :=
  let sub_offset := le32 data off
  let range_start := le32 data (off + 4)
  let range_len := le16 data (off + 8)
  let glyph_id_offset := le16 data (off + 10)
  let total := le16 data (off + 12)
  let sub_type := data.getD (off + 14) 0
  if sub_type = 2 then
    (List.range range_len).map (fun j =>
      (range_start + j, glyph_id_offset + j))
  else if sub_type = 0 then
    if sub_offset + total ≤ data.length then
      (List.range range_len).filterMap (fun j =>
        if sub_offset + j < data.length then
          some (range_start + j, glyph_id_offset + data.getD (sub_offset + j) 0)
        else none)
    else []
  else if sub_type = 3 then
    if sub_offset + total * 2 ≤ data.length then
      (List.range total).filterMap (fun j =>
        let pos := sub_offset + j * 2
        if pos + 2 ≤ data.length then
          some (range_start + le16 data pos, glyph_id_offset + j)
        else none)
    else []
  else if sub_type = 1 then
    let ids_offset := sub_offset + total * 2
    if ids_offset + total * 2 ≤ data.length then
      (List.range total).filterMap (fun j =>
        let code_pos := sub_offset + j * 2
        let id_pos := ids_offset + j * 2
        if code_pos + 2 ≤ data.length ∧ id_pos + 2 ≤ data.length then
          some (range_start + le16 data code_pos,
                glyph_id_offset + le16 data id_pos)
        else none)
    else []
  else []

/-- All dict writes of the subtable loop: subtable `i` sits at offset
`12 + 16 * i`; the loop breaks at the first header that would overrun
the payload. -/
def cmapEmitsLoop (data : List Nat) (count off : Nat) : List (Nat × Nat) :=
  match count with
  | 0 => []
  | count + 1 =>
    if off + 16 > data.length then []
    else cmapSubtableEmits data off ++ cmapEmitsLoop data count (off + 16)

/-- The ordered dict writes of `_parse_cmap_chunk` (payload shorter than
the 12-byte inner header ⇒ none). -/
def cmapEmitsBin (data : List Nat) : List (Nat × Nat) :=
  if data.length < 12 then []
  else cmapEmitsLoop data (le32 data 8) 12

/-- `_parse_cmap_chunk`: the `unicode -> glyph_id` dict it stores on the
model, as an insertion-ordered association list. -/
def parseCmapChunk (data : List Nat) : List (Nat × Nat) :=
  dictInsertAll [] (cmapEmitsBin data)

/-- The loca offset loop: read `count` little-endian u32 values starting
at byte `off`, breaking at the first read that would overrun. -/
def readPosLoop (loca : List Nat) (count off : Nat) : List Nat :=
  match count with
  | 0 => []
  | count + 1 =>
    if off + 4 ≤ loca.length then
      le32 loca off :: readPosLoop loca count (off + 4)
    else []

/-- Per-pair glyph construction in `_parse_glyf_chunks`.  `none` means
the pair contributes no glyph: the id fails `glyph_id < len(positions)-1`
(with Python semantics `len(positions) - 1` is `-1` on an empty list, so
everything is dropped), the byte range has length between 1 and 5 or is
negative, the 6-byte descriptor read would overrun `glyf` (the
`struct` exception is caught per-glyph), or the bitmap reshape for
`bpp = 8` fails (likewise caught). -/
def processGlyfPair (glyf : List Nat) (positions : List Nat) (bpp : Nat)
    (p : Nat × Nat) : Option GlyphInfo :=
  if positions.length ≤ p.2 + 1 then none
  else
    let start := positions.getD p.2 0
    let stop := positions.getD (p.2 + 1) 0
    let glyph_size : Int := (stop : Int) - (start : Int)
    if glyph_size = 0 then
      some { unicode := p.1, bitmap_index := 8 + start, adv_w := 0,
             box_w := 0, box_h := 0, ofs_x := 0, ofs_y := 0 }
    else if 6 ≤ glyph_size then
      if 8 + start + 6 ≤ glyf.length then
        let adv_w := le16 glyf (8 + start)
        let box_w := glyf.getD (8 + start + 2) 0
        let box_h := glyf.getD (8 + start + 3) 0
        let ofs_x := i8val (glyf.getD (8 + start + 4) 0)
        let ofs_y := i8val (glyf.getD (8 + start + 5) 0)
        let bitmap_size := glyph_size.toNat - 6
        let bitmap_bytes := (glyf.drop (8 + start + 6)).take bitmap_size
        if 0 < box_w ∧ 0 < box_h then
          match unpackBitmap bitmap_bytes box_w box_h bpp with
          | some px =>
            some { unicode := p.1, bitmap_index := 8 + start,
                   adv_w := adv_w, box_w := box_w, box_h := box_h,
                   ofs_x := ofs_x, ofs_y := ofs_y,
                   bitmap_data := some px }
          | none => none
        else
          some { unicode := p.1, bitmap_index := 8 + start,
                 adv_w := adv_w, box_w := box_w, box_h := box_h,
                 ofs_x := ofs_x, ofs_y := ofs_y }
      else none
    else none

/-- `_parse_glyf_chunks`: returns the glyph list and the raw
`glyph_bitmap` buffer it stores (an early return on a short loca payload
leaves both at their defaults).  `positions` holds `glyph_count` u32
offsets (offsets start right after the 12-byte inner loca header);
glyphs are appended in dict-iteration order. -/
def parseGlyfChunks (loca glyf : List Nat) (pairs : List (Nat × Nat))
    (bpp : Nat) : List GlyphInfo × List Nat :=
  if loca.length < 12 then ([], [])
  else
    let glyph_count := le32 loca 8
    let positions := readPosLoop loca glyph_count 12
    (pairs.filterMap (processGlyfPair glyf positions bpp), glyf)

/-- The chunk-dispatch part of `BINFontParser.parse` after the head
chunk was handled: cmap (if present) builds the unicode dict, loca+glyf
(if both present) build the glyphs. -/
def binDispatchRest (chunks : List (List Nat × List Nat)) (f : FontInfo) :
    FontInfo :=
  let pairs :=
    match chunkGet chunks cmapTag with
    | some c => parseCmapChunk c
    | none => []
  match chunkGet chunks locaTag, chunkGet chunks glyfTag with
  | some loca, some glyf =>
    let r := parseGlyfChunks loca glyf pairs f.bpp
    { f with glyphs := r.1, glyph_bitmap := r.2 }
  | _, _ => f

/-- The body of `BINFontParser.parse` on the file bytes.  The one
exception that escapes to the top-level handler is a head chunk whose
payload is shorter than the 40 bytes `_parse_head_chunk` reads (every
other stage guards its reads or catches per-glyph). -/
def binParseBody (fileData : List Nat) : Option FontInfo :=
  let chunks := readChunks fileData
  let f0 : FontInfo := { file_type := "bin" }
  match chunkGet chunks headTag with
  | some hd =>
    if hd.length < 40 then none
    else some (binDispatchRest chunks (parseHeadChunk hd f0))
  | none => some (binDispatchRest chunks f0)

/-- `BINFontParser.parse`: `none` input stands for an unreadable file;
any exception from the body is caught and turned into `None`. -/
def binParse (input : Option (List Nat)) : Option FontInfo :=
  match input with
  | none => none
  | some fileData => binParseBody fileData

/-! ## Auxiliary definitions used only by the statements -/

/-- The last glyph in list order carrying unicode `u` (and a positive
unicode), as a fold in list order. -/
def lastGlyphWins (glyphs : List GlyphInfo) (u : Nat) : Option GlyphInfo :=
  glyphs.foldl
    (fun acc g => if 0 < g.unicode ∧ g.unicode = u then some g else acc)
    none

/-- Stated from the claim's words, for comparison with
`processGlyfPair`: build the glyph of a kept pair from the byte slice
`[positions[id], positions[id+1])` of the glyf payload past its 8-byte
size+tag header alone — descriptor from the first 6 slice bytes, bitmap
from the rest. -/
def glyphFromSlice (u : Nat) (slice : List Nat) (bitmap_index bpp : Nat) :
    Option GlyphInfo :=
  if slice.length = 0 then
    some { unicode := u, bitmap_index := bitmap_index, adv_w := 0,
           box_w := 0, box_h := 0, ofs_x := 0, ofs_y := 0 }
  else if 6 ≤ slice.length then
    let adv_w := le16 slice 0
    let box_w := slice.getD 2 0
    let box_h := slice.getD 3 0
    let ofs_x := i8val (slice.getD 4 0)
    let ofs_y := i8val (slice.getD 5 0)
    if 0 < box_w ∧ 0 < box_h then
      (unpackBitmap (slice.drop 6) box_w box_h bpp).map (fun px =>
        { unicode := u, bitmap_index := bitmap_index, adv_w := adv_w,
          box_w := box_w, box_h := box_h, ofs_x := ofs_x, ofs_y := ofs_y,
          bitmap_data := some px })
    else
      some { unicode := u, bitmap_index := bitmap_index, adv_w := adv_w,
             box_w := box_w, box_h := box_h, ofs_x := ofs_x,
             ofs_y := ofs_y }
  else none

/-- Little-endian u32 serialization (for building container buffers). -/
def encodeU32 (v : Nat) : List Nat :=
  [v % 256, v / 256 % 256, v / 65536 % 256, v / 16777216 % 256]

/-- A well-formed chunk: size field counting itself and the tag. -/
def encodeChunk (tag payload : List Nat) : List Nat :=
  encodeU32 (payload.length + 8) ++ tag ++ payload

/-- A 40-byte head payload carrying `font_size = 16`, `ascent = a` (a
u16 bit pattern at offsets 8–9) and descent bit pattern `du` (u16,
offsets 10–11); every other field 0. -/
def mkHeadPayload (a du : Nat) : List Nat :=
  [0, 0, 0, 0, 0, 0, 16, 0, a % 256, a / 256, du % 256, du / 256] ++
    List.replicate 28 0

/-! ## Concrete inputs for counterexamples and witnesses -/

/-- Three glyph descriptors (ids 0, 1, 2, told apart by `bitmap_index`)
and two `FORMAT0_TINY` cmap ranges that both map unicode 65: the first
to glyph id 2, the later one to glyph id 1. -/
def c1src : CSource :=
  { glyphDescs := some
      [{ bitmap_index := 0, adv_w := 16, box_w := 0, box_h := 0,
         ofs_x := 0, ofs_y := 0 },
       { bitmap_index := 1, adv_w := 16, box_w := 0, box_h := 0,
         ofs_x := 0, ofs_y := 0 },
       { bitmap_index := 2, adv_w := 16, box_w := 0, box_h := 0,
         ofs_x := 0, ofs_y := 0 }],
    cmaps :=
      [{ range_start := 65, range_length := 1, glyph_id_start := 2 },
       { range_start := 65, range_length := 1, glyph_id_start := 1 }] }

/-- The SPARSE_FULL range of the spec's worked example. -/
def c6entry : CCmapEntry :=
  { range_start := 65, range_length := 3, glyph_id_start := 100,
    cmap_type := "SPARSE_FULL", unicode_list := some [0, 5, 10],
    glyph_id_ofs_list := some [2, 3, 4] }

/-- A loca payload declaring `glyph_count = 1` while holding two u32
offset entries (0 and 10) after the 12-byte inner header. -/
def c4loca : List Nat :=
  List.replicate 8 0 ++ [1, 0, 0, 0] ++ [0, 0, 0, 0] ++ [10, 0, 0, 0]

/-- A complete head chunk (ascent 14, descent −3, i.e. u16 pattern
65533) followed by a trailing chunk declaring 100 bytes but providing
none past its header. -/
def c5buf : List Nat :=
  encodeChunk headTag (mkHeadPayload 14 65533) ++ [100, 0, 0, 0] ++ glyfTag

/-- The model `c5buf` must parse to: header metrics populated
(`line_height = 14 - (-3) = 17`, `base_line = 3`), zero glyphs. -/
def c5font : FontInfo :=
  { file_type := "bin", font_size := 16, line_height := 17, base_line := 3 }

/-- A readable buffer whose head chunk payload is a single byte: the
fixed 40-byte head layout cannot be read from it. -/
def c7buf : List Nat := encodeChunk headTag [0]

/-- A source whose glyph 0 has an empty box and whose glyph 1 has a
1×1 box decoded from the one bitmap byte. -/
def c9src : CSource :=
  { bpp_field := some 8,
    bitmapHex := some [7],
    glyphDescs := some
      [{ bitmap_index := 0, adv_w := 16, box_w := 0, box_h := 0,
         ofs_x := 0, ofs_y := 0 },
       { bitmap_index := 0, adv_w := 16, box_w := 1, box_h := 1,
         ofs_x := 0, ofs_y := 0 }] }

/-! # Helper lemmas -/

/-! ## Bitmap codec -/

theorem byteSamples_length (bpp b : Nat)
    (h : bpp = 1 ∨ bpp = 2 ∨ bpp = 4) :
    (byteSamples bpp b).length = 8 / bpp := by
  rcases h with h | h | h <;> subst h <;> rfl

/-- The byte loop emits the first `n - idx` samples of the byte
stream. -/
theorem unpackLoop_eq (data : List Nat) (n bpp idx : Nat) :
    unpackLoop data n bpp idx =
      (data.flatMap (byteSamples bpp)).take (n - idx) := by
  induction data generalizing idx with
  | nil => simp [unpackLoop]
  | cons b rest ih =>
    rw [unpackLoop, List.flatMap_cons, List.take_append_eq_append_take]
    by_cases h : n ≤ idx
    · rw [if_pos h]
      simp [Nat.sub_eq_zero_of_le h]
    · rw [if_neg h]
      simp only [List.length_take]
      congr 1
      rw [ih]
      congr 1
      omega

theorem flatMap_length_const (f : Nat → List Nat) (g : Nat)
    (hf : ∀ b, (f b).length = g) (data : List Nat) :
    (data.flatMap f).length = data.length * g := by
  induction data with
  | nil => simp
  | cons b rest ih =>
    rw [List.flatMap_cons, List.length_append, ih, hf b, List.length_cons]
    ring

/-- Indexing a concatenation of equal-length blocks. -/
theorem flatMap_getD (f : Nat → List Nat) (g : Nat) (hg : 0 < g)
    (hf : ∀ b, (f b).length = g) (data : List Nat) (i : Nat)
    (hi : i < data.length * g) :
    (data.flatMap f).getD i 0 = (f (data.getD (i / g) 0)).getD (i % g) 0 := by
  induction data generalizing i with
  | nil => simp at hi
  | cons b rest ih =>
    rw [List.flatMap_cons]
    by_cases h : i < g
    · rw [Nat.div_eq_of_lt h, Nat.mod_eq_of_lt h,
        show (b :: rest).getD 0 0 = b from rfl]
      have hb : i < (f b).length := by rw [hf b]; exact h
      rw [List.getD_eq_getElem _ _
            (by rw [List.length_append]; omega),
          List.getElem_append_left hb, List.getD_eq_getElem _ _ hb]
    · push_neg at h
      have hq : 1 ≤ i / g := (Nat.one_le_div_iff hg).mpr h
      have hmod := Nat.div_add_mod i g
      have hrlt : i % g < g := Nat.mod_lt _ hg
      have hgq : g * (i / g) = g * (i / g - 1) + g := by
        have h1 : i / g = (i / g - 1) + 1 := by omega
        conv_lhs => rw [h1]
        ring
      have hsub : i - g = g * (i / g - 1) + i % g := by omega
      have hdiv2 : (i - g) / g = i / g - 1 := by
        rw [hsub, Nat.mul_add_div hg, Nat.div_eq_of_lt hrlt]
        omega
      have hmod2 : (i - g) % g = i % g := by
        rw [hsub, Nat.mul_add_mod, Nat.mod_eq_of_lt hrlt]
      have hb : (f b).length ≤ i := by rw [hf b]; exact h
      rw [List.getD_eq_getElem?_getD, List.getElem?_append_right hb,
          ← List.getD_eq_getElem?_getD, hf b]
      have hi2 : i - g < rest.length * g := by
        have hlen : (b :: rest).length * g = g + rest.length * g := by
          rw [List.length_cons]; ring
        omega
      rw [ih _ hi2, hdiv2, hmod2]
      have hcons : (b :: rest).getD (i / g) 0 = rest.getD (i / g - 1) 0 := by
        have h1 : i / g = (i / g - 1) + 1 := by omega
        rw [h1]
        rfl
      rw [hcons]

theorem byteSamples_getD_four (b j : Nat) (hj : j < 2) :
    (byteSamples 4 b).getD j 0 = b / 2 ^ (8 - 4 - j * 4) % 2 ^ 4 := by
  have m4 : ∀ x : Nat, x &&& 15 = x % 16 :=
    fun x => Nat.and_pow_two_sub_one_eq_mod x 4
  interval_cases j <;>
    simp [byteSamples, Nat.shiftRight_eq_div_pow, m4]

theorem byteSamples_getD_two (b j : Nat) (hj : j < 4) :
    (byteSamples 2 b).getD j 0 = b / 2 ^ (8 - 2 - j * 2) % 2 ^ 2 := by
  have m2 : ∀ x : Nat, x &&& 3 = x % 4 :=
    fun x => Nat.and_pow_two_sub_one_eq_mod x 2
  interval_cases j <;>
    simp [byteSamples, Nat.shiftRight_eq_div_pow, m2]

theorem byteSamples_getD_one (b j : Nat) (hj : j < 8) :
    (byteSamples 1 b).getD j 0 = b / 2 ^ (8 - 1 - j * 1) % 2 ^ 1 := by
  have m1 : ∀ x : Nat, x &&& 1 = x % 2 :=
    fun x => Nat.and_pow_two_sub_one_eq_mod x 1
  interval_cases j <;>
    simp [byteSamples, Nat.shiftRight_eq_div_pow, m1]


/-! ## Dict and index folds -/

theorem dictLookup_append_single (d : List (Nat × Nat)) (x : Nat × Nat)
    (k : Nat) :
    dictLookup (d ++ [x]) k =
      if x.1 = k then some x.2 else dictLookup d k := by
  rw [dictLookup, List.foldl_append]
  rfl

theorem dictLookup_map_subst (d : List (Nat × Nat)) (a v k : Nat) :
    dictLookup (d.map (fun p => if p.1 = a then (a, v) else p)) k =
      if a = k ∧ d.any (fun p => p.1 = a) then some v
      else dictLookup d k := by
  induction d using List.reverseRecOn with
  | nil => simp [dictLookup]
  | append_singleton d' p ih =>
    rw [List.map_append, List.map_singleton, dictLookup_append_single,
      dictLookup_append_single]
    by_cases hp : p.1 = a
    · by_cases hak : a = k
      · simp [hp, hak, ih]
      · simp [hp, hak, ih, show ¬p.1 = k from by rw [hp]; exact hak]
    · by_cases hpk : p.1 = k
      · have hna : ¬a = k := fun hak => hp (by rw [hpk, hak])
        have hka : ¬k = a := fun h => hna h.symm
        simp [hp, hpk, hna, hka]
      · have hany : ((d' ++ [p]).any fun q => decide (q.1 = a)) =
            (d'.any fun q => decide (q.1 = a)) := by
          simp [hp]
        rw [hany]
        simp [hp, hpk, ih]

theorem dictLookup_insert (d : List (Nat × Nat)) (a v k : Nat) :
    dictLookup (dictInsert d a v) k =
      if a = k then some v else dictLookup d k := by
  rw [dictInsert]
  by_cases hany : d.any (fun p => p.1 = a)
  · rw [if_pos hany, dictLookup_map_subst]
    simp [hany]
  · rw [if_neg hany, dictLookup_append_single]

theorem lastPairWins_foldl (t : List (Nat × Nat)) (k : Nat) (a : Option Nat) :
    t.foldl (fun acc p => if p.1 = k then some p.2 else acc) a =
      match lastPairWins t k with
      | some b => some b
      | none => a := by
  induction t generalizing a with
  | nil => rfl
  | cons p t ih =>
    rw [List.foldl_cons]
    rw [show lastPairWins (p :: t) k =
      List.foldl (fun acc q => if q.1 = k then some q.2 else acc)
        (if p.1 = k then some p.2 else none) t from by
        rw [lastPairWins, List.foldl_cons]]
    by_cases hp : p.1 = k
    · rw [if_pos hp, if_pos hp, ih (some p.2)]
      rcases hX : lastPairWins t k with _ | b <;> rfl
    · rw [if_neg hp, if_neg hp, ih a, ih none]
      rcases hX : lastPairWins t k with _ | b <;> rfl

theorem dictLookup_insertAll_lastWins (ps : List (Nat × Nat))
    (d : List (Nat × Nat)) (k : Nat) :
    dictLookup (dictInsertAll d ps) k =
      match lastPairWins ps k with
      | some v => some v
      | none => dictLookup d k := by
  induction ps generalizing d with
  | nil => rfl
  | cons p t ih =>
    rw [show dictInsertAll d (p :: t) =
      dictInsertAll (dictInsert d p.1 p.2) t from by
        rw [dictInsertAll, dictInsertAll, List.foldl_cons]]
    rw [ih]
    rw [show lastPairWins (p :: t) k =
      List.foldl (fun acc q => if q.1 = k then some q.2 else acc)
        (if p.1 = k then some p.2 else none) t from by
        rw [lastPairWins, List.foldl_cons]]
    rw [lastPairWins_foldl]
    rcases hX : lastPairWins t k with _ | b
    · rw [dictLookup_insert]
      by_cases hp : p.1 = k
      · rw [if_pos hp, if_pos hp]
      · rw [if_neg hp, if_neg hp]
    · rfl

theorem lastGlyphWins_foldl (t : List GlyphInfo) (u : Nat)
    (a : Option GlyphInfo) :
    t.foldl (fun acc g => if 0 < g.unicode ∧ g.unicode = u then some g
      else acc) a =
      match lastGlyphWins t u with
      | some g => some g
      | none => a := by
  induction t generalizing a with
  | nil => rfl
  | cons g t ih =>
    rw [List.foldl_cons]
    rw [show lastGlyphWins (g :: t) u =
      List.foldl (fun acc x => if 0 < x.unicode ∧ x.unicode = u then some x
        else acc)
        (if 0 < g.unicode ∧ g.unicode = u then some g else none) t from by
        rw [lastGlyphWins, List.foldl_cons]]
    by_cases hg : 0 < g.unicode ∧ g.unicode = u
    · rw [if_pos hg, if_pos hg, ih (some g)]
      rcases hX : lastGlyphWins t u with _ | x <;> rfl
    · rw [if_neg hg, if_neg hg, ih a, ih none]
      rcases hX : lastGlyphWins t u with _ | x <;> rfl

theorem buildIndex_foldl (gs : List GlyphInfo) (u : Nat)
    (m : Nat → Option GlyphInfo) :
    (gs.foldl
      (fun m g =>
        if 0 < g.unicode then fun x => if x = g.unicode then some g else m x
        else m)
      m) u =
      match lastGlyphWins gs u with
      | some g => some g
      | none => m u := by
  induction gs generalizing m with
  | nil => rfl
  | cons g t ih =>
    rw [List.foldl_cons]
    rw [show lastGlyphWins (g :: t) u =
      List.foldl (fun acc x => if 0 < x.unicode ∧ x.unicode = u then some x
        else acc)
        (if 0 < g.unicode ∧ g.unicode = u then some g else none) t from by
        rw [lastGlyphWins, List.foldl_cons]]
    rw [ih, lastGlyphWins_foldl]
    rcases hX : lastGlyphWins t u with _ | x
    · by_cases hpos : 0 < g.unicode
      · by_cases hu : u = g.unicode
        · simp [hpos, hu]
        · simp [hpos, hu, Ne.symm hu]
      · simp [hpos]
    · rfl

theorem buildIndex_lastGlyphWins (glyphs : List GlyphInfo) (u : Nat) :
    buildIndex glyphs u = lastGlyphWins glyphs u := by
  rw [buildIndex, buildIndex_foldl]
  rcases hX : lastGlyphWins glyphs u with _ | x <;> rfl


/-! ## Cmap resolver -/

theorem length_filterMap_all_some {α β : Type} (f : α → Option β)
    (l : List α) (h : ∀ a ∈ l, (f a).isSome) :
    (l.filterMap f).length = l.length := by
  induction l with
  | nil => rfl
  | cons a t ih =>
    rw [List.filterMap_cons]
    rcases hf : f a with _ | b
    · exact absurd (h a (by simp)) (by simp [hf])
    · rw [List.length_cons, List.length_cons,
        ih (fun x hx => h x (by simp [hx]))]

theorem cmapPairsC_sparse_full_length (e : CCmapEntry) (count : Nat)
    (ul gl : List Nat) (htype : e.cmap_type = "SPARSE_FULL")
    (hul : e.unicode_list = some ul) (hgl : e.glyph_id_ofs_list = some gl)
    (hbound : ∀ i < min e.range_length (min ul.length gl.length),
        e.glyph_id_start + gl.getD i 0 < count) :
    (cmapPairsC e count).length =
      min e.range_length (min ul.length gl.length) := by
  simp only [cmapPairsC, htype, hul, hgl]
  rw [if_neg (by decide), if_neg (by decide), if_neg (by decide)]
  by_cases he : ul.isEmpty ∨ gl.isEmpty
  · rw [if_pos he]
    rcases he with he | he <;> rw [List.isEmpty_iff.mp he] <;> simp
  · rw [if_neg he]
    simp only [if_true]
    rw [length_filterMap_all_some _ _ ?_, List.length_range]
    intro i hi
    rw [List.mem_range] at hi
    have hb := hbound i (by omega)
    simp only [List.getD_eq_getElem?_getD] at hb
    simp [hb]

theorem cmapPairsC_format0_full_length (e : CCmapEntry) (count : Nat)
    (gl : List Nat) (htype : e.cmap_type = "FORMAT0_FULL")
    (hgl : e.glyph_id_ofs_list = some gl)
    (hbound : ∀ i < min e.range_length gl.length,
        e.glyph_id_start + gl.getD i 0 < count) :
    (cmapPairsC e count).length = min e.range_length gl.length := by
  simp only [cmapPairsC, htype, hgl]
  rw [if_neg (by decide)]
  simp only [if_true]
  by_cases he : gl.isEmpty
  · rw [if_pos he]
    rw [List.isEmpty_iff.mp he]
    simp
  · rw [if_neg he]
    rw [length_filterMap_all_some _ _ ?_, List.length_range]
    intro i hi
    rw [List.mem_range] at hi
    have hb := hbound i (by omega)
    simp only [List.getD_eq_getElem?_getD] at hb
    simp [hb]

theorem cmapPairsC_sparse_tiny_length (e : CCmapEntry) (count : Nat)
    (ul : List Nat) (htype : e.cmap_type = "SPARSE_TINY")
    (hul : e.unicode_list = some ul)
    (hbound : ∀ i < min e.range_length ul.length,
        e.glyph_id_start + i < count) :
    (cmapPairsC e count).length = min e.range_length ul.length := by
  simp only [cmapPairsC, htype, hul]
  rw [if_neg (by decide), if_neg (by decide)]
  simp only [if_true]
  by_cases he : ul.isEmpty
  · rw [if_pos he]
    rw [List.isEmpty_iff.mp he]
    simp
  · rw [if_neg he]
    rw [length_filterMap_all_some _ _ ?_, List.length_range]
    intro i hi
    rw [List.mem_range] at hi
    have hb := hbound i (by omega)
    simp [hb]

theorem cmapPairsC_id_bound (e : CCmapEntry) (count : Nat) :
    ∀ p ∈ cmapPairsC e count, p.2 < count := by
  intro p hp
  unfold cmapPairsC at hp
  repeat' split at hp
  all_goals try simp at hp
  all_goals
    (obtain ⟨a, h1, h2, h3⟩ := hp
     cases h3
     exact h2)



/-! ## Binary chunk container -/

theorem readChunksFuel_congr (fuel₁ : Nat) :
    ∀ (fuel₂ : Nat) (rem : List Nat), rem.length < fuel₁ →
      rem.length < fuel₂ →
      readChunksFuel fuel₁ rem = readChunksFuel fuel₂ rem := by
  induction fuel₁ with
  | zero => intro fuel₂ rem h₁ h₂; omega
  | succ f ih =>
    intro fuel₂ rem h₁ h₂
    cases fuel₂ with
    | zero => omega
    | succ f₂ =>
      cases rem with
      | nil => rfl
      | cons b rest =>
        simp only [readChunksFuel]
        repeat' split
        all_goals try rfl
        congr 1
        apply ih
        · simp only [List.length_drop, List.length_cons]
          simp only [List.length_cons] at h₁
          omega
        · simp only [List.length_drop, List.length_cons]
          simp only [List.length_cons] at h₂
          omega

theorem le32_encodeU32 (v : Nat) (l : List Nat) (hv : v < 4294967296) :
    le32 (encodeU32 v ++ l) 0 = v := by
  simp only [encodeU32, le32, List.cons_append, List.getD_cons_zero,
    List.getD_cons_succ]
  omega

theorem readChunksFuel_eq (fuel : Nat) (rem : List Nat) (hne : rem ≠ []) :
    readChunksFuel (fuel + 1) rem =
      if rem.length < 4 then []
      else
        if (rem.drop 4).length < 4 then []
        else
          if le32 rem 0 < 8 then []
          else
            if ((rem.drop 4).drop 4).length < le32 rem 0 - 8 then []
            else
              (decodeTag ((rem.drop 4).take 4),
                ((rem.drop 4).drop 4).take (le32 rem 0 - 8)) ::
                readChunksFuel fuel
                  (((rem.drop 4).drop 4).drop (le32 rem 0 - 8)) := by
  cases rem with
  | nil => exact absurd rfl hne
  | cons b rest => rfl

theorem readChunks_cons (sz : Nat) (tagbs payload rest : List Nat)
    (htag : tagbs.length = 4) (hsz : sz = payload.length + 8)
    (hv : sz < 4294967296) :
    readChunks (encodeU32 sz ++ (tagbs ++ (payload ++ rest))) =
      (decodeTag tagbs, payload) :: readChunks rest := by
  have hB : (encodeU32 sz ++ (tagbs ++ (payload ++ rest))).length =
      8 + payload.length + rest.length := by
    simp [encodeU32, htag]
    omega
  have hle : le32 (encodeU32 sz ++ (tagbs ++ (payload ++ rest))) 0 = sz :=
    le32_encodeU32 _ _ hv
  have hdrop4 : (encodeU32 sz ++ (tagbs ++ (payload ++ rest))).drop 4 =
      tagbs ++ (payload ++ rest) := by
    rw [show (4 : Nat) = (encodeU32 sz).length from rfl, List.drop_left]
  have htake4 : (tagbs ++ (payload ++ rest)).take 4 = tagbs := by
    rw [show (4 : Nat) = tagbs.length from htag.symm, List.take_left]
  have hdrop44 : (tagbs ++ (payload ++ rest)).drop 4 = payload ++ rest := by
    rw [show (4 : Nat) = tagbs.length from htag.symm, List.drop_left]
  have htakep : (payload ++ rest).take (sz - 8) = payload := by
    rw [hsz, show payload.length + 8 - 8 = payload.length from by omega,
      List.take_left]
  have hdropp : (payload ++ rest).drop (sz - 8) = rest := by
    rw [hsz, show payload.length + 8 - 8 = payload.length from by omega,
      List.drop_left]
  rw [readChunks, readChunksFuel_eq _ _ (by simp [encodeU32])]
  rw [hdrop4, hdrop44, hle, htake4, htakep, hdropp]
  rw [if_neg (by rw [hB]; omega)]
  rw [if_neg (by rw [List.length_append, List.length_append, htag]; omega)]
  rw [if_neg (by omega)]
  rw [if_neg (by rw [List.length_append]; omega)]
  congr 1
  rw [readChunks]
  apply readChunksFuel_congr
  · rw [hB]
    omega
  · omega

theorem i16val_emod (d : Int) (hd1 : -32768 ≤ d) (hd2 : d < 32768) :
    i16val (d % 65536).toNat = d := by
  rw [i16val]
  have h0 : (0 : Int) ≤ d % 65536 := Int.emod_nonneg d (by norm_num)
  have h1 : d % 65536 < 65536 := Int.emod_lt_of_pos d (by norm_num)
  have h2 : ((d % 65536).toNat : Int) = d % 65536 := Int.toNat_of_nonneg h0
  split
  · rename_i h
    have h3 : ((d % 65536).toNat : Int) < 32768 := by exact_mod_cast h
    omega
  · rename_i h
    have h3 : ¬((d % 65536).toNat : Int) < 32768 := by
      intro hc
      exact h (by exact_mod_cast hc)
    omega

/-- C8: decoding a head chunk whose payload carries ascent `a` (u16)
and descent `d` (i16 bit pattern) yields a model with
`line_height = a - d` and `base_line = -d`; e.g. ascent 14, descent −3
give 17 and 3 (the witness below). -/
theorem head_chunk_metrics (a : Nat) (d : Int) (_ha : a < 65536)
    (hd1 : -32768 ≤ d) (hd2 : d < 32768) :
    binParse (some (encodeChunk headTag
        (mkHeadPayload a (d % 65536).toNat))) =
      some { file_type := "bin", font_size := 16,
             line_height := (a : Int) - d, base_line := -d } := by
  set pl := mkHeadPayload a (d % 65536).toNat with hpl
  have hlen : pl.length = 40 := rfl
  have hchunks : readChunks (encodeChunk headTag pl) = [(headTag, pl)] := by
    have he : encodeChunk headTag pl =
        encodeU32 48 ++ (headTag ++ (pl ++ [])) := by
      rw [encodeChunk, hlen]
      simp [List.append_assoc]
    rw [he, readChunks_cons 48 headTag _ [] rfl (by rw [hlen]) (by norm_num)]
    rfl
  rw [binParse, binParseBody, hchunks]
  rw [show chunkGet [(headTag, pl)] headTag = some pl from rfl]
  change (if pl.length < 40 then none
      else some (binDispatchRest [(headTag, pl)]
        (parseHeadChunk pl { file_type := "bin" }))) =
    some { file_type := "bin", font_size := 16,
           line_height := (a : Int) - d, base_line := -d }
  rw [if_neg (by rw [hlen]; omega)]
  rw [show ∀ f, binDispatchRest [(headTag, pl)] f = f from fun f => rfl]
  have h8 : le16 pl 8 = a := by
    rw [hpl, le16, mkHeadPayload,
      List.getD_append _ _ _ _ (by simp),
      List.getD_append _ _ _ _ (by simp)]
    show a % 256 + 256 * (a / 256) = a
    omega
  have h10 : le16 pl 10 = (d % 65536).toNat := by
    rw [hpl, le16, mkHeadPayload,
      List.getD_append _ _ _ _ (by simp),
      List.getD_append _ _ _ _ (by simp)]
    show (d % 65536).toNat % 256 + 256 * ((d % 65536).toNat / 256) =
      (d % 65536).toNat
    omega
  rw [parseHeadChunk, h8, h10, i16val_emod d hd1 hd2]
  rfl

theorem readChunks_overrun (sz : Nat) (tagbs junk : List Nat)
    (htag : tagbs.length = 4) (h8 : 8 ≤ sz) (hv : sz < 4294967296)
    (hshort : junk.length < sz - 8) :
    readChunks (encodeU32 sz ++ (tagbs ++ junk)) = [] := by
  have hB : (encodeU32 sz ++ (tagbs ++ junk)).length = 8 + junk.length := by
    simp [encodeU32, htag]
    omega
  have hle : le32 (encodeU32 sz ++ (tagbs ++ junk)) 0 = sz :=
    le32_encodeU32 _ _ hv
  have hdrop4 : (encodeU32 sz ++ (tagbs ++ junk)).drop 4 = tagbs ++ junk := by
    rw [show (4 : Nat) = (encodeU32 sz).length from rfl, List.drop_left]
  have hdrop44 : (tagbs ++ junk).drop 4 = junk := by
    rw [show (4 : Nat) = tagbs.length from htag.symm, List.drop_left]
  rw [readChunks, readChunksFuel_eq _ _ (by simp [encodeU32])]
  rw [hdrop4, hdrop44, hle]
  rw [if_neg (by rw [hB]; omega)]
  rw [if_neg (by rw [List.length_append, htag]; omega)]
  rw [if_neg (by omega)]
  rw [if_pos hshort]


/-! ## Model invariants -/

theorem binDispatchRest_cmap_ranges (chunks : List (List Nat × List Nat))
    (f : FontInfo) :
    (binDispatchRest chunks f).cmap_ranges = f.cmap_ranges := by
  rw [binDispatchRest]
  rcases chunkGet chunks locaTag with _ | loca <;>
    rcases chunkGet chunks glyfTag with _ | glyf <;> rfl

theorem parseHeadChunk_cmap_ranges (hd : List Nat) (f : FontInfo) :
    (parseHeadChunk hd f).cmap_ranges = f.cmap_ranges := rfl

theorem foldl_glyph_preserves {α : Type} (f : List GlyphInfo → α → List GlyphInfo)
    (P : GlyphInfo → Prop)
    (hf : ∀ gs a, (∀ g ∈ gs, P g) → ∀ g ∈ f gs a, P g) :
    ∀ (l : List α) (gs : List GlyphInfo), (∀ g ∈ gs, P g) →
      ∀ g ∈ l.foldl f gs, P g := by
  intro l
  induction l with
  | nil => exact fun gs h => h
  | cons a t ih =>
    intro gs h
    rw [List.foldl_cons]
    exact ih _ (hf gs a h)

theorem setGlyphUnicode_none (gs : List GlyphInfo) (p : Nat × Nat)
    (hin : ∀ g ∈ gs, g.bitmap_data = none) :
    ∀ g ∈ setGlyphUnicode gs p, g.bitmap_data = none := by
  intro g hg
  rw [setGlyphUnicode] at hg
  rcases hq : gs.get? p.2 with _ | g0
  · rw [hq] at hg
    exact hin g hg
  · rw [hq] at hg
    rcases List.mem_or_eq_of_mem_set hg with h | h
    · exact hin g h
    · subst h
      simpa using hin g0 (List.get?_mem hq)

theorem applyCmapsC_none (entries : List CCmapEntry) (gs : List GlyphInfo)
    (hin : ∀ g ∈ gs, g.bitmap_data = none) :
    ∀ g ∈ applyCmapsC gs entries, g.bitmap_data = none := by
  refine foldl_glyph_preserves _ _ ?_ entries gs hin
  intro gs' e h
  exact foldl_glyph_preserves _ _ (fun gs'' p h' => setGlyphUnicode_none gs'' p h')
    (cmapPairsC e gs'.length) gs' h

theorem extract_zero_box (bitmap : List Nat) (bpp : Nat)
    (gs : List GlyphInfo) (hin : ∀ g ∈ gs, g.bitmap_data = none) :
    ∀ g ∈ extractGlyphBitmaps bitmap bpp gs,
      g.box_w = 0 ∨ g.box_h = 0 → g.bitmap_data = none := by
  intro g hg hbox
  rw [extractGlyphBitmaps] at hg
  split at hg
  · exact hin g hg
  · rw [List.mem_map] at hg
    obtain ⟨g0, hg0, hfg⟩ := hg
    by_cases hb : g0.box_w = 0 ∨ g0.box_h = 0
    · rw [if_pos hb] at hfg
      subst hfg
      exact hin g0 hg0
    · rw [if_neg hb] at hfg
      simp only [] at hfg
      split at hfg
      · subst hfg
        exact hin g0 hg0
      · subst hfg
        simp only at hbox
        exact absurd hbox hb

theorem processGlyfPair_zero_box (glyf positions : List Nat) (bpp : Nat)
    (p : Nat × Nat) (g : GlyphInfo)
    (h : processGlyfPair glyf positions bpp p = some g) :
    g.box_w = 0 ∨ g.box_h = 0 → g.bitmap_data = none := by
  intro hbox
  rw [processGlyfPair] at h
  split at h
  · cases h
  · simp only [] at h
    split at h
    · cases h
      rfl
    · split at h
      · split at h
        · split at h
          · split at h
            · cases h
              simp only at hbox
              exfalso
              rcases hbox with hb | hb <;> omega
            · cases h
          · cases h
            rfl
        · cases h
      · cases h

theorem processGlyfPair_zero_size (glyf positions : List Nat)
    (bpp u gid : Nat) (h1 : gid + 1 < positions.length)
    (h2 : positions.getD gid 0 = positions.getD (gid + 1) 0) :
    processGlyfPair glyf positions bpp (u, gid) =
      some { unicode := u, bitmap_index := 8 + positions.getD gid 0,
             adv_w := 0, box_w := 0, box_h := 0, ofs_x := 0, ofs_y := 0 } := by
  rw [processGlyfPair,
    if_neg (show ¬positions.length ≤ gid + 1 from by omega)]
  simp only []
  rw [if_pos (show ((positions.getD (gid + 1) 0 : Nat) : Int) -
      ((positions.getD gid 0 : Nat) : Int) = 0 from by rw [h2]; ring)]

theorem cParse_zero_box (src : CSource) (f : FontInfo)
    (h : cParse (some src) = some f) :
    ∀ g ∈ f.glyphs, g.box_w = 0 ∨ g.box_h = 0 → g.bitmap_data = none := by
  rw [cParse, cParseBody] at h
  simp only [] at h
  split at h
  · cases h
  · injection h with h2
    subst h2
    intro g hg hbox
    refine extract_zero_box _ _ _ ?_ g hg hbox
    refine applyCmapsC_none _ _ ?_ 
    intro g' hg'
    rw [List.mem_map] at hg'
    obtain ⟨d0, _, hd0⟩ := hg'
    subst hd0
    rfl

theorem mem_parseGlyfChunks_fst (loca glyf : List Nat)
    (pairs : List (Nat × Nat)) (bpp : Nat) (g : GlyphInfo)
    (hg : g ∈ (parseGlyfChunks loca glyf pairs bpp).1) :
    ∃ p, processGlyfPair glyf (readPosLoop loca (le32 loca 8) 12) bpp p =
      some g := by
  rw [parseGlyfChunks] at hg
  split at hg
  · simp at hg
  · rw [show ((List.filterMap
        (processGlyfPair glyf (readPosLoop loca (le32 loca 8) 12) bpp)
        pairs, glyf)).1 = List.filterMap
        (processGlyfPair glyf (readPosLoop loca (le32 loca 8) 12) bpp)
        pairs from rfl] at hg
    rw [List.mem_filterMap] at hg
    obtain ⟨p, _, hp⟩ := hg
    exact ⟨p, hp⟩

theorem binParse_zero_box (buf : List Nat) (f : FontInfo)
    (h : binParse (some buf) = some f) :
    ∀ g ∈ f.glyphs, g.box_w = 0 ∨ g.box_h = 0 → g.bitmap_data = none := by
  have hstep : ∀ (chunks : List (List Nat × List Nat)) (f0 : FontInfo),
      f0.glyphs = [] →
      ∀ g ∈ (binDispatchRest chunks f0).glyphs,
        g.box_w = 0 ∨ g.box_h = 0 → g.bitmap_data = none := by
    intro chunks f0 hf0 g hg hbox
    rw [binDispatchRest] at hg
    split at hg
    · obtain ⟨p, hp⟩ := mem_parseGlyfChunks_fst _ _ _ _ _ hg
      exact processGlyfPair_zero_box _ _ _ _ _ hp hbox
    · rw [hf0] at hg
      exact absurd hg (List.not_mem_nil g)
  simp only [binParse, binParseBody] at h
  split at h
  · split at h
    · cases h
    · injection h with h2
      subst h2
      exact hstep _ _ rfl
  · injection h with h2
    subst h2
    exact hstep _ _ rfl


/-! ## Loca positions and glyf slices -/

theorem getD_drop_take (l : List Nat) (a n k : Nat) (hk : k < n) :
    ((l.drop a).take n).getD k 0 = l.getD (a + k) 0 := by
  rw [List.getD_eq_getElem?_getD, List.getD_eq_getElem?_getD,
    List.getElem?_take, if_pos hk, List.getElem?_drop]

theorem readPosLoop_spec (loca : List Nat) (count : Nat) :
    ∀ off, off + 4 * count ≤ loca.length →
      (readPosLoop loca count off).length = count ∧
      ∀ i < count, (readPosLoop loca count off).getD i 0 =
        le32 loca (off + 4 * i) := by
  induction count with
  | zero => intro off h; exact ⟨rfl, by omega⟩
  | succ c ih =>
    intro off h
    rw [readPosLoop, if_pos (by omega)]
    obtain ⟨ihl, ihv⟩ := ih (off + 4) (by omega)
    constructor
    · rw [List.length_cons, ihl]
    · intro i hi
      cases i with
      | zero =>
        rw [List.getD_cons_zero]
        have he : off + 4 * 0 = off := by omega
        rw [he]
      | succ j =>
        rw [List.getD_cons_succ, ihv j (by omega)]
        congr 1
        omega

theorem processGlyfPair_drop (glyf positions : List Nat) (bpp u gid : Nat)
    (h : positions.length ≤ gid + 1) :
    processGlyfPair glyf positions bpp (u, gid) = none := by
  rw [processGlyfPair, if_pos (show positions.length ≤ gid + 1 from h)]

theorem processGlyfPair_slice (glyf positions : List Nat) (bpp : Nat)
    (p : Nat × Nat) (h1 : p.2 + 1 < positions.length)
    (hmono : positions.getD p.2 0 ≤ positions.getD (p.2 + 1) 0)
    (hin : 8 + positions.getD (p.2 + 1) 0 ≤ glyf.length) :
    processGlyfPair glyf positions bpp p =
      glyphFromSlice p.1
        ((glyf.drop (8 + positions.getD p.2 0)).take
          (positions.getD (p.2 + 1) 0 - positions.getD p.2 0))
        (8 + positions.getD p.2 0) bpp := by
  have hslen : ((glyf.drop (8 + positions.getD p.2 0)).take
      (positions.getD (p.2 + 1) 0 - positions.getD p.2 0)).length =
      positions.getD (p.2 + 1) 0 - positions.getD p.2 0 := by
    rw [List.length_take, List.length_drop]
    omega
  rw [processGlyfPair,
    if_neg (show ¬positions.length ≤ p.2 + 1 from by omega)]
  simp only []
  rw [glyphFromSlice]
  by_cases hz : positions.getD (p.2 + 1) 0 = positions.getD p.2 0
  · rw [if_pos (show ((positions.getD (p.2 + 1) 0 : Nat) : Int) -
        ((positions.getD p.2 0 : Nat) : Int) = 0 from by omega),
      if_pos (show ((glyf.drop (8 + positions.getD p.2 0)).take
        (positions.getD (p.2 + 1) 0 - positions.getD p.2 0)).length = 0
        from by rw [hslen]; omega)]
  · rw [if_neg (show ¬(((positions.getD (p.2 + 1) 0 : Nat) : Int) -
        ((positions.getD p.2 0 : Nat) : Int) = 0) from by omega)]
    by_cases h6 : 6 ≤ positions.getD (p.2 + 1) 0 - positions.getD p.2 0
    · rw [if_pos (show (6 : Int) ≤ ((positions.getD (p.2 + 1) 0 : Nat) : Int) -
          ((positions.getD p.2 0 : Nat) : Int) from by omega),
        if_pos (show 8 + positions.getD p.2 0 + 6 ≤ glyf.length
          from by omega),
        if_neg (show ¬(((glyf.drop (8 + positions.getD p.2 0)).take
          (positions.getD (p.2 + 1) 0 - positions.getD p.2 0)).length = 0)
          from by rw [hslen]; omega),
        if_pos (show 6 ≤ ((glyf.drop (8 + positions.getD p.2 0)).take
          (positions.getD (p.2 + 1) 0 - positions.getD p.2 0)).length
          from by rw [hslen]; omega)]
      have hA : le16 ((glyf.drop (8 + positions.getD p.2 0)).take
          (positions.getD (p.2 + 1) 0 - positions.getD p.2 0)) 0 =
          le16 glyf (8 + positions.getD p.2 0) := by
        rw [le16, le16, getD_drop_take _ _ _ _ (by omega),
          getD_drop_take _ _ _ _ (by omega)]
        norm_num
      have hW : ∀ k, k < 6 →
          ((glyf.drop (8 + positions.getD p.2 0)).take
            (positions.getD (p.2 + 1) 0 - positions.getD p.2 0)).getD k 0 =
          glyf.getD (8 + positions.getD p.2 0 + k) 0 := by
        intro k hk
        exact getD_drop_take _ _ _ _ (by omega)
      have hB : ((glyf.drop (8 + positions.getD p.2 0)).take
          (positions.getD (p.2 + 1) 0 - positions.getD p.2 0)).drop 6 =
          (glyf.drop (8 + positions.getD p.2 0 + 6)).take
            ((((positions.getD (p.2 + 1) 0 : Nat) : Int) -
              ((positions.getD p.2 0 : Nat) : Int)).toNat - 6) := by
        rw [List.drop_take, List.drop_drop, Int.toNat_sub]
      rw [hA, hW 2 (by omega), hW 3 (by omega), hW 4 (by omega),
        hW 5 (by omega), hB]
      simp only []
      by_cases hbox : 0 < glyf.getD (8 + positions.getD p.2 0 + 2) 0 ∧
          0 < glyf.getD (8 + positions.getD p.2 0 + 3) 0
      · rw [if_pos hbox, if_pos hbox]
        cases unpackBitmap ((glyf.drop (8 + positions.getD p.2 0 + 6)).take
            ((((positions.getD (p.2 + 1) 0 : Nat) : Int) -
              ((positions.getD p.2 0 : Nat) : Int)).toNat - 6))
            (glyf.getD (8 + positions.getD p.2 0 + 2) 0)
            (glyf.getD (8 + positions.getD p.2 0 + 3) 0) bpp <;> rfl
      · rw [if_neg hbox, if_neg hbox]
    · rw [if_neg (show ¬((6 : Int) ≤
          ((positions.getD (p.2 + 1) 0 : Nat) : Int) -
          ((positions.getD p.2 0 : Nat) : Int)) from by omega),
        if_neg (show ¬(((glyf.drop (8 + positions.getD p.2 0)).take
          (positions.getD (p.2 + 1) 0 - positions.getD p.2 0)).length = 0)
          from by rw [hslen]; omega),
        if_neg (show ¬(6 ≤ ((glyf.drop (8 + positions.getD p.2 0)).take
          (positions.getD (p.2 + 1) 0 - positions.getD p.2 0)).length)
          from by rw [hslen]; omega)]

/-! # Claim theorems -/

/-- C2: for every `bpp ∈ {1,2,4,8}`, every width and height, and every
byte sequence of the required `calc_bytes` length, `_unpack_bitmap`
extracts exactly `width*height` samples, most-significant-bits-first
within each byte (sample `i` is bits
`8 - bpp - (i*bpp) % 8 .. +bpp` of byte `i*bpp/8`), stopping after
`width*height` samples; in particular byte `0xAB` at `bpp = 4` over 2
samples gives `[0xA, 0xB]` and byte `0b10110000` at `bpp = 1` over 8
samples gives `[1,0,1,1,0,0,0,0]`. -/
theorem unpack_msb_first :
    (∀ width height bpp data,
        (bpp = 1 ∨ bpp = 2 ∨ bpp = 4 ∨ bpp = 8) →
        data.length = calcBitmapBytes (width * height) bpp →
        (∀ b ∈ data, b < 256) →
        unpackBitmap data width height bpp =
          some (msbFirstSamples data (width * height) bpp)) ∧
    unpackBitmap [171] 2 1 4 = some [10, 11] ∧
    unpackBitmap [176] 8 1 1 = some [1, 0, 1, 1, 0, 0, 0, 0] := by
  refine ⟨?_, by decide, by decide⟩
  intro w h bpp data hbpp hlen hbytes
  rcases hbpp with hb | hb | hb | hb
  · subst hb
    have hfb : ∀ b, (byteSamples 1 b).length = 8 := fun b => rfl
    have hflen := flatMap_length_const (byteSamples 1) 8 hfb data
    rw [calcBitmapBytes] at hlen
    norm_num at hlen
    simp only [unpackBitmap]
    norm_num
    rw [unpackLoop_eq]
    simp only [Nat.sub_zero]
    generalize hn : w * h = n at *
    have hlt : (List.take n (data.flatMap (byteSamples 1))).length = n := by
      rw [List.length_take, hflen]; omega
    rw [hlt]
    simp only [Nat.sub_self, List.replicate_zero, List.append_nil]
    apply List.ext_get
    · rw [hlt, msbFirstSamples, List.length_map, List.length_range]
    · intro i h1 h2
      have hic : i < n := by rw [hlt] at h1; exact h1
      have hiL : i < (data.flatMap (byteSamples 1)).length := by
        rw [hflen]; omega
      simp only [List.get_eq_getElem]
      rw [← List.getElem_take' _ hiL hic]
      simp only [msbFirstSamples, List.getElem_map, List.getElem_range]
      rw [← List.getD_eq_getElem _ 0 hiL,
        flatMap_getD _ 8 (by norm_num) hfb data i (by omega),
        byteSamples_getD_one _ _ (Nat.mod_lt _ (by norm_num))]
      have e1 : i * 1 / 8 = i / 8 := by omega
      have e2 : i * 1 % 8 = i % 8 * 1 := by omega
      rw [e1, e2]
  · subst hb
    have hfb : ∀ b, (byteSamples 2 b).length = 4 := fun b => rfl
    have hflen := flatMap_length_const (byteSamples 2) 4 hfb data
    rw [calcBitmapBytes] at hlen
    norm_num at hlen
    simp only [unpackBitmap]
    norm_num
    rw [unpackLoop_eq]
    simp only [Nat.sub_zero]
    generalize hn : w * h = n at *
    have hlt : (List.take n (data.flatMap (byteSamples 2))).length = n := by
      rw [List.length_take, hflen]; omega
    rw [hlt]
    simp only [Nat.sub_self, List.replicate_zero, List.append_nil]
    apply List.ext_get
    · rw [hlt, msbFirstSamples, List.length_map, List.length_range]
    · intro i h1 h2
      have hic : i < n := by rw [hlt] at h1; exact h1
      have hiL : i < (data.flatMap (byteSamples 2)).length := by
        rw [hflen]; omega
      simp only [List.get_eq_getElem]
      rw [← List.getElem_take' _ hiL hic]
      simp only [msbFirstSamples, List.getElem_map, List.getElem_range]
      rw [← List.getD_eq_getElem _ 0 hiL,
        flatMap_getD _ 4 (by norm_num) hfb data i (by omega),
        byteSamples_getD_two _ _ (Nat.mod_lt _ (by norm_num))]
      have e1 : i * 2 / 8 = i / 4 := by omega
      have e2 : i * 2 % 8 = i % 4 * 2 := by omega
      rw [e1, e2]
  · subst hb
    have hfb : ∀ b, (byteSamples 4 b).length = 2 := fun b => rfl
    have hflen := flatMap_length_const (byteSamples 4) 2 hfb data
    rw [calcBitmapBytes] at hlen
    norm_num at hlen
    simp only [unpackBitmap]
    norm_num
    rw [unpackLoop_eq]
    simp only [Nat.sub_zero]
    generalize hn : w * h = n at *
    have hlt : (List.take n (data.flatMap (byteSamples 4))).length = n := by
      rw [List.length_take, hflen]; omega
    rw [hlt]
    simp only [Nat.sub_self, List.replicate_zero, List.append_nil]
    apply List.ext_get
    · rw [hlt, msbFirstSamples, List.length_map, List.length_range]
    · intro i h1 h2
      have hic : i < n := by rw [hlt] at h1; exact h1
      have hiL : i < (data.flatMap (byteSamples 4)).length := by
        rw [hflen]; omega
      simp only [List.get_eq_getElem]
      rw [← List.getElem_take' _ hiL hic]
      simp only [msbFirstSamples, List.getElem_map, List.getElem_range]
      rw [← List.getD_eq_getElem _ 0 hiL,
        flatMap_getD _ 2 (by norm_num) hfb data i (by omega),
        byteSamples_getD_four _ _ (Nat.mod_lt _ (by norm_num))]
      have e1 : i * 4 / 8 = i / 2 := by omega
      have e2 : i * 4 % 8 = i % 2 * 4 := by omega
      rw [e1, e2]
  · subst hb
    rw [calcBitmapBytes] at hlen
    norm_num at hlen
    simp only [unpackBitmap]
    norm_num
    refine ⟨by rw [hlen, Nat.mul_comm], ?_⟩
    apply List.ext_get
    · rw [msbFirstSamples, List.length_map, List.length_range, hlen]
    · intro i h1 h2
      simp only [List.get_eq_getElem, msbFirstSamples, List.getElem_map,
        List.getElem_range]
      have e1 : i * 8 / 8 = i := by omega
      have e2 : 8 - 8 - i * 8 % 8 = 0 := by omega
      rw [e1, e2, pow_zero, Nat.div_one, List.getD_eq_getElem _ _ h1]
      exact (Nat.mod_eq_of_lt (hbytes _ (List.getElem_mem _))).symm

/-- Witness for `unpack_msb_first`: its universal part applied to the
spec's 4-bit example. -/
theorem unpack_msb_first_witness :
    unpackBitmap [171] 2 1 4 = some (msbFirstSamples [171] 2 4) :=
  unpack_msb_first.1 2 1 4 [171] (by decide) (by decide) (by decide)

/-- C3 counterexample: at `bpp = 3` (not in {1,2,4,8}) the unpack
operation does not signal failure — it returns a decoded (all-zero)
grid. -/
theorem unpack_bpp3_no_error :
    unpackBitmap [255] 1 1 3 ≠ none ∧
      unpackBitmap [255] 1 1 3 = some [0] := by
  decide

/-- C3 amended: for every `bpp` outside {1,2,4,8}, `_unpack_bitmap`
returns the untouched all-zero `height*width` grid instead of
signalling an unsupported-format error. -/
theorem unpack_unsupported_bpp_zero_grid (data : List Nat)
    (width height bpp : Nat) (h1 : bpp ≠ 1) (h2 : bpp ≠ 2) (h4 : bpp ≠ 4)
    (h8 : bpp ≠ 8) :
    unpackBitmap data width height bpp =
      some (List.replicate (height * width) 0) := by
  rw [unpackBitmap, if_neg h8, if_neg (by tauto)]

/-- Witness for `unpack_unsupported_bpp_zero_grid` at `bpp = 3`. -/
theorem unpack_unsupported_bpp_zero_grid_witness :
    unpackBitmap [255] 1 1 3 = some (List.replicate 1 0) :=
  unpack_unsupported_bpp_zero_grid [255] 1 1 3 (by decide) (by decide)
    (by decide) (by decide)


/-- C1 counterexample: two `FORMAT0_TINY` ranges both map unicode 65,
the first to glyph id 2, the later one to glyph id 1; after the C
parser's cmap processing and the index build, the index entry for 65 is
the glyph with id 2 (the earlier range's mapping), not the later
range's glyph id 1. -/
theorem c1_later_range_loses :
    (cParse (some c1src)).map
        (fun f => (buildIndex f.glyphs 65).map (fun g => g.bitmap_index)) =
      some (some 2) ∧
    (cParse (some c1src)).map
        (fun f => (buildIndex f.glyphs 65).map (fun g => g.bitmap_index)) ≠
      some (some 1) := by
  decide

/-- C1 amended: the duplicate-unicode winner in `build_index` is the
last glyph in glyph-list (glyph-id) order whose `unicode` field equals
the looked-up value — range processing order only decides which glyphs
carry the unicode, so the later range wins only when its glyph id is
larger.  In the binary parser's cmap stage the dict really is
last-write-wins in range/subtable emission order. -/
theorem index_last_writer_wins :
    (∀ glyphs u, buildIndex glyphs u = lastGlyphWins glyphs u) ∧
    (∀ data k, dictLookup (parseCmapChunk data) k =
        lastPairWins (cmapEmitsBin data) k) := by
  constructor
  · exact buildIndex_lastGlyphWins
  · intro data k
    rw [parseCmapChunk, dictLookup_insertAll_lastWins]
    rcases hX : lastPairWins (cmapEmitsBin data) k with _ | b <;> rfl

/-- C6: an encoding that needs explicit offset arrays loops over
`min(range_length, length of each needed array)` indices (so, when every
resolved glyph id passes the bound check, it emits exactly that many
pairs); a resolved glyph id at or above the glyph count emits nothing
for that pair and aborts nothing; and the spec's SPARSE_FULL example
resolves to exactly {0x41: 102, 0x46: 103, 0x4B: 104}. -/
theorem cmap_explicit_offset_clipping :
    (∀ e count ul gl, e.cmap_type = "SPARSE_FULL" →
        e.unicode_list = some ul → e.glyph_id_ofs_list = some gl →
        (∀ i < min e.range_length (min ul.length gl.length),
            e.glyph_id_start + gl.getD i 0 < count) →
        (cmapPairsC e count).length =
          min e.range_length (min ul.length gl.length)) ∧
    (∀ e count gl, e.cmap_type = "FORMAT0_FULL" →
        e.glyph_id_ofs_list = some gl →
        (∀ i < min e.range_length gl.length,
            e.glyph_id_start + gl.getD i 0 < count) →
        (cmapPairsC e count).length = min e.range_length gl.length) ∧
    (∀ e count ul, e.cmap_type = "SPARSE_TINY" →
        e.unicode_list = some ul →
        (∀ i < min e.range_length ul.length,
            e.glyph_id_start + i < count) →
        (cmapPairsC e count).length = min e.range_length ul.length) ∧
    (∀ e count, ∀ p ∈ cmapPairsC e count, p.2 < count) ∧
    cmapPairsC c6entry 105 = [(65, 102), (70, 103), (75, 104)] :=
  ⟨fun e count ul gl => cmapPairsC_sparse_full_length e count ul gl,
   fun e count gl => cmapPairsC_format0_full_length e count gl,
   fun e count ul => cmapPairsC_sparse_tiny_length e count ul,
   cmapPairsC_id_bound, by decide⟩

/-- Witness for `cmap_explicit_offset_clipping`: the SPARSE_FULL part
applied to the spec's worked example. -/
theorem cmap_explicit_offset_clipping_witness :
    (cmapPairsC c6entry 105).length = min 3 (min 3 3) :=
  cmap_explicit_offset_clipping.1 c6entry 105 [0, 5, 10] [2, 3, 4]
    rfl rfl rfl (by decide)


set_option maxHeartbeats 2000000 in
/-- Witness for `head_chunk_metrics`: ascent 14, descent −3 (u16
pattern 65533) give `line_height = 17`, `base_line = 3`. -/
theorem head_chunk_metrics_witness :
    binParse (some (encodeChunk headTag (mkHeadPayload 14 65533))) =
      some { file_type := "bin", font_size := 16, line_height := 17,
             base_line := 3 } := by
  have h := head_chunk_metrics 14 (-3) (by decide) (by decide) (by decide)
  norm_num at h
  exact h

set_option maxHeartbeats 2000000 in
/-- C5: chunk reading consumes a complete chunk and continues behind it
(first conjunct), stops cleanly — returning the chunks read so far,
not an error — at a chunk whose declared size overruns the remaining
buffer (second conjunct), and a buffer holding one complete head chunk
followed by a declared-but-short trailing chunk parses to a model with
the header fields populated and zero glyphs (third conjunct). -/
theorem chunk_reading_stops_cleanly :
    (∀ tag payload rest, tag.length = 4 →
        payload.length + 8 < 4294967296 →
        readChunks (encodeChunk tag payload ++ rest) =
          (decodeTag tag, payload) :: readChunks rest) ∧
    (∀ sz tag junk, tag.length = 4 → 8 ≤ sz → sz < 4294967296 →
        junk.length < sz - 8 →
        readChunks (encodeU32 sz ++ (tag ++ junk)) = []) ∧
    binParse (some c5buf) = some c5font := by
  refine ⟨?_, ?_, by decide⟩
  · intro tag payload rest htag hv
    rw [show encodeChunk tag payload ++ rest =
      encodeU32 (payload.length + 8) ++ (tag ++ (payload ++ rest)) from by
        rw [encodeChunk]
        simp [List.append_assoc]]
    exact readChunks_cons _ _ _ _ htag rfl hv
  · intro sz tag junk htag h8 hv hshort
    exact readChunks_overrun sz tag junk htag h8 hv hshort

/-- Witness for `chunk_reading_stops_cleanly`: its first conjunct
applied to the head chunk and truncated tail of `c5buf`. -/
theorem chunk_reading_stops_cleanly_witness :
    readChunks (encodeChunk headTag (mkHeadPayload 14 65533) ++
        ([100, 0, 0, 0] ++ glyfTag)) =
      (decodeTag headTag, mkHeadPayload 14 65533) ::
        readChunks ([100, 0, 0, 0] ++ glyfTag) :=
  chunk_reading_stops_cleanly.1 headTag (mkHeadPayload 14 65533)
    ([100, 0, 0, 0] ++ glyfTag) rfl (by decide)

/-- C10: a model returned by the binary parser has an empty recorded
cmap-range collection, so the coverage-range query returns the empty
list on it, whatever glyphs or index it holds. -/
theorem bin_cmap_ranges_empty :
    ∀ buf f, binParse (some buf) = some f →
      f.cmap_ranges = [] ∧ getUnicodeRanges f = [] := by
  intro buf f h
  simp only [binParse, binParseBody] at h
  have hcr : f.cmap_ranges = [] := by
    split at h
    · split at h
      · cases h
      · cases h
        rw [binDispatchRest_cmap_ranges, parseHeadChunk_cmap_ranges]
    · cases h
      rw [binDispatchRest_cmap_ranges]
  refine ⟨hcr, ?_⟩
  rw [getUnicodeRanges, hcr]
  rfl

/-- Witness for `bin_cmap_ranges_empty` at the empty buffer. -/
theorem bin_cmap_ranges_empty_witness :
    ({ file_type := "bin" } : FontInfo).cmap_ranges = [] ∧
      getUnicodeRanges { file_type := "bin" } = [] :=
  bin_cmap_ranges_empty [] { file_type := "bin" } rfl

/-- C9: in a model produced by either parser every glyph whose bounding
box width or height is 0 has no decoded pixel grid, and in the binary
parser a zero-length glyf byte range yields a glyph with all-zero box
and offsets and no pixel grid. -/
theorem zero_box_no_pixel_grid :
    (∀ src f, cParse (some src) = some f →
        ∀ g ∈ f.glyphs, g.box_w = 0 ∨ g.box_h = 0 →
          g.bitmap_data = none) ∧
    (∀ buf f, binParse (some buf) = some f →
        ∀ g ∈ f.glyphs, g.box_w = 0 ∨ g.box_h = 0 →
          g.bitmap_data = none) ∧
    (∀ glyf positions bpp u gid, gid + 1 < positions.length →
        positions.getD gid 0 = positions.getD (gid + 1) 0 →
        processGlyfPair glyf positions bpp (u, gid) =
          some { unicode := u, bitmap_index := 8 + positions.getD gid 0,
                 adv_w := 0, box_w := 0, box_h := 0, ofs_x := 0,
                 ofs_y := 0 }) :=
  ⟨cParse_zero_box, binParse_zero_box,
   fun glyf positions bpp u gid =>
     processGlyfPair_zero_size glyf positions bpp u gid⟩

/-- Witness for `zero_box_no_pixel_grid`: the zero-box glyph of
`c9src` has no pixel grid in the parsed model. -/
theorem zero_box_no_pixel_grid_witness :
    ({ unicode := 0, bitmap_index := 0, adv_w := 16, box_w := 0,
       box_h := 0, ofs_x := 0, ofs_y := 0 } : GlyphInfo).bitmap_data =
      none :=
  zero_box_no_pixel_grid.1 c9src
    { file_type := "c", bpp := 8,
      glyphs :=
        [{ unicode := 0, bitmap_index := 0, adv_w := 16, box_w := 0,
           box_h := 0, ofs_x := 0, ofs_y := 0 },
         { unicode := 0, bitmap_index := 0, adv_w := 16, box_w := 1,
           box_h := 1, ofs_x := 0, ofs_y := 0,
           bitmap_data := some [7] }],
      glyph_bitmap := [7] }
    (by decide)
    { unicode := 0, bitmap_index := 0, adv_w := 16, box_w := 0,
      box_h := 0, ofs_x := 0, ofs_y := 0 }
    (by decide) (by decide)


/-- C4 counterexample: a loca payload declaring `glyph_count = 1` with
room for two u32 offset entries still yields a positions array of
length 1 = glyph_count — the loop reads `glyph_count` offsets, not
`glyph_count + 1`. -/
theorem loca_positions_not_count_plus_one :
    le32 c4loca 8 = 1 ∧ 12 + 4 * (le32 c4loca 8 + 1) ≤ c4loca.length ∧
    (readPosLoop c4loca (le32 c4loca 8) 12).length ≠ le32 c4loca 8 + 1 := by
  decide

/-- C4 amended: the positions array read from the loca payload holds
`glyph_count` little-endian u32 offsets (entry `i` from payload byte
`12 + 4*i`) — not `glyph_count + 1`; every cmap-resolved pair whose
glyph id is at least `positions.length - 1` is dropped; and a kept
pair's glyph is computed exactly from the byte slice
`[positions[id], positions[id+1])` of the glyf payload past its 8-byte
size+tag header (descriptor from the first 6 slice bytes, bitmap from
the rest). -/
theorem loca_glyf_byte_ranges :
    (∀ loca, 12 + 4 * le32 loca 8 ≤ loca.length →
        (readPosLoop loca (le32 loca 8) 12).length = le32 loca 8 ∧
        ∀ i < le32 loca 8,
          (readPosLoop loca (le32 loca 8) 12).getD i 0 =
            le32 loca (12 + 4 * i)) ∧
    (∀ glyf positions bpp u gid, positions.length ≤ gid + 1 →
        processGlyfPair glyf positions bpp (u, gid) = none) ∧
    (∀ glyf positions bpp u gid, gid + 1 < positions.length →
        positions.getD gid 0 ≤ positions.getD (gid + 1) 0 →
        8 + positions.getD (gid + 1) 0 ≤ glyf.length →
        processGlyfPair glyf positions bpp (u, gid) =
          glyphFromSlice u
            ((glyf.drop (8 + positions.getD gid 0)).take
              (positions.getD (gid + 1) 0 - positions.getD gid 0))
            (8 + positions.getD gid 0) bpp) :=
  ⟨fun loca h => readPosLoop_spec loca (le32 loca 8) 12 h,
   fun glyf positions bpp u gid h =>
     processGlyfPair_drop glyf positions bpp u gid h,
   fun glyf positions bpp u gid h1 h2 h3 =>
     processGlyfPair_slice glyf positions bpp (u, gid) h1 h2 h3⟩

/-- Witness for `loca_glyf_byte_ranges`: its first conjunct applied to
the concrete loca payload `c4loca`. -/
theorem loca_glyf_byte_ranges_witness :
    (readPosLoop c4loca (le32 c4loca 8) 12).length = le32 c4loca 8 ∧
    ∀ i < le32 c4loca 8,
      (readPosLoop c4loca (le32 c4loca 8) 12).getD i 0 =
        le32 c4loca (12 + 4 * i) :=
  loca_glyf_byte_ranges.1 c4loca (by decide)

/-- C7 counterexample: a perfectly readable binary buffer — a head
chunk whose payload is one byte — makes `parse` return no model
although the file was read successfully, so "no model" is not
restricted to unreadable/undecodable inputs. -/
theorem short_head_fatal_on_readable_input :
    binParse (some c7buf) = none := by
  decide

/-- C7 amended: neither parser propagates an exception — the
top-level handler turns any internal raise into "no model" — and the
exact no-model conditions are: an unreadable/undecodable file (`none`
input), a bitmap hex literal of 256 or more in the textual source
(`bytes()` raising), or, for the binary parser, a present head chunk
whose payload is shorter than the 40-byte fixed layout
(`struct.unpack_from` raising); any other input yields a model. -/
theorem parse_failure_characterization :
    (cParse none = none ∧ binParse none = none) ∧
    (∀ src, cParse (some src) = none ↔
        ∃ h ∈ src.bitmapHex.getD [], 256 ≤ h) ∧
    (∀ buf, binParse (some buf) = none ↔
        ∃ hd, chunkGet (readChunks buf) headTag = some hd ∧
          hd.length < 40) := by
  refine ⟨⟨rfl, rfl⟩, ?_, ?_⟩
  · intro src
    rw [cParse, cParseBody]
    rcases hb : src.bitmapHex with _ | hs
    · simp
    · simp only [Option.getD_some]
      by_cases hall : hs.all (fun x => x < 256)
      · rw [if_pos hall]
        simp only []
        rw [List.all_eq_true] at hall
        constructor
        · intro h
          cases h
        · rintro ⟨x, hx, h256⟩
          have hx2 := hall x hx
          simp at hx2
          omega
      · rw [if_neg hall]
        constructor
        · intro _
          rw [List.all_eq_true] at hall
          push_neg at hall
          obtain ⟨x, hx, hlt⟩ := hall
          refine ⟨x, hx, ?_⟩
          simp at hlt
          omega
        · intro _
          rfl
  · intro buf
    rw [binParse, binParseBody]
    rcases hh : chunkGet (readChunks buf) headTag with _ | hd
    · simp
    · by_cases hlen : hd.length < 40
      · simp [hlen]
      · simp [hlen]

end LvFont
